import Mathlib

/-!
Verification of the CRLite instantiation of the clubcard library
(`src/crlite/builder.rs`, `src/crlite/query.rs`) against its
natural-language specification.

Bytes are modelled as `Nat` (values below 256 in well-formed data),
byte strings as `List Nat`, and 64-bit machine words as `Nat` reduced
modulo 2^64 where overflow can occur.  Fallible operations return
`Option` or `Except`; a Rust panic is modelled as `Option.none`.
-/

namespace Clubcard

/-! ### SHA-256 (the `sha2` crate dependency of `CRLiteQuery::as_query`)

A direct embedding of FIPS 180-4 SHA-256 over byte lists.  Words are
`Nat` values kept below 2^32 by explicit reduction. -/

def m32 (x : Nat) : Nat := x % 4294967296

def rotr32 (n x : Nat) : Nat := m32 ((x >>> n) ||| (x <<< (32 - n)))

def shaCh (x y z : Nat) : Nat := (x &&& y) ^^^ ((x ^^^ 4294967295) &&& z)

def shaMaj (x y z : Nat) : Nat := (x &&& y) ^^^ (x &&& z) ^^^ (y &&& z)

def capSigma0 (x : Nat) : Nat := rotr32 2 x ^^^ rotr32 13 x ^^^ rotr32 22 x

def capSigma1 (x : Nat) : Nat := rotr32 6 x ^^^ rotr32 11 x ^^^ rotr32 25 x

def lowSigma0 (x : Nat) : Nat := rotr32 7 x ^^^ rotr32 18 x ^^^ (x >>> 3)

def lowSigma1 (x : Nat) : Nat := rotr32 17 x ^^^ rotr32 19 x ^^^ (x >>> 10)

/-- The 64 SHA-256 round constants, in decimal. -/
def K256 : List Nat :=
  [1116352408, 1899447441, 3049323471, 3921009573, 961987163, 1508970993,
   2453635748, 2870763221, 3624381080, 310598401, 607225278, 1426881987,
   1925078388, 2162078206, 2614888103, 3248222580, 3835390401, 4022224774,
   264347078, 604807628, 770255983, 1249150122, 1555081692, 1996064986,
   2554220882, 2821834349, 2952996808, 3210313671, 3336571891, 3584528711,
   113926993, 338241895, 666307205, 773529912, 1294757372, 1396182291,
   1695183700, 1986661051, 2177026350, 2456956037, 2730485921, 2820302411,
   3259730800, 3345764771, 3516065817, 3600352804, 4094571909, 275423344,
   430227734, 506948616, 659060556, 883997877, 958139571, 1322822218,
   1537002063, 1747873779, 1955562222, 2024104815, 2227730452, 2361852424,
   2428436474, 2756734187, 3204031479, 3329325298]

/-- The SHA-256 initial hash state, in decimal. -/
def H256 : List Nat :=
  [1779033703, 3144134277, 1013904242, 2773480762,
   1359893119, 2600822924, 528734635, 1541459225]

/-- Big-endian interpretation of a byte list as a natural number. -/
def bytesToNatBE (l : List Nat) : Nat := l.foldl (fun acc b => 256 * acc + b) 0

/-- Big-endian encoding of a natural number into `k` bytes. -/
def natToBytesBE : Nat → Nat → List Nat
  | 0, _ => []
  | k + 1, x => natToBytesBE k (x / 256) ++ [x % 256]

/-- The next message-schedule word, given the previous words most
recent first. -/
def schedNext (w : List Nat) : Nat :=
  m32 (lowSigma1 (w.getD 1 0) + w.getD 6 0 + lowSigma0 (w.getD 14 0) + w.getD 15 0)

/-- Extend the message schedule by `k` words (list most recent first). -/
def extendSched : Nat → List Nat → List Nat
  | 0, w => w
  | k + 1, w => extendSched k (schedNext w :: w)

/-- One SHA-256 compression round on an 8-word state. -/
def shaRound (st : List Nat) (kw : Nat × Nat) : List Nat :=
  match st with
  | [a, b, c, d, e, f, g, h] =>
    let t1 := m32 (h + capSigma1 e + shaCh e f g + kw.1 + kw.2)
    let t2 := m32 (capSigma0 a + shaMaj a b c)
    [m32 (t1 + t2), a, b, c, m32 (d + t1), e, f, g]
  | other => other

/-- Split a byte list into 4-byte big-endian words. -/
def bytesToWordsBE : List Nat → List Nat
  | b0 :: b1 :: b2 :: b3 :: rest => bytesToNatBE [b0, b1, b2, b3] :: bytesToWordsBE rest
  | _ => []

/-- SHA-256 compression of one 64-byte block into the running state. -/
def compressBlock (h : List Nat) (block : List Nat) : List Nat :=
  let w16 := bytesToWordsBE block
  let w := (extendSched 48 w16.reverse).reverse
  let st := (K256.zip w).foldl shaRound h
  (h.zip st).map (fun p => m32 (p.1 + p.2))

/-- Split a byte list into 64-byte blocks. -/
def toBlocks (l : List Nat) : List (List Nat) :=
  if h : l = [] then []
  else l.take 64 :: toBlocks (l.drop 64)
termination_by l.length
decreasing_by
  simp only [List.length_drop]
  have : 0 < l.length := List.length_pos.mpr h
  omega

/-- FIPS 180-4 message padding: a 0x80 byte, zeros to 56 mod 64, then
the bit length as an 8-byte big-endian integer. -/
def padMsg (msg : List Nat) : List Nat :=
  let r := (msg.length + 1) % 64
  let k := (56 + 64 - r) % 64
  msg ++ [128] ++ List.replicate k 0 ++ natToBytesBE 8 (8 * msg.length)

/-- Big-endian bytes of one 32-bit word. -/
def wordToBytesBE (x : Nat) : List Nat := natToBytesBE 4 x

/-- SHA-256 digest (32 bytes) of a byte list. -/
def sha256 (msg : List Nat) : List Nat :=
  (((toBlocks (padMsg msg)).foldl compressBlock H256).map wordToBytesBE).flatten

/-! ### Equation (clubcard core type, declared outside the given sources)

Modelled from the spec: an `Equation<4>` is a single linear-system row
with a start offset `s` in `[0,m)`, four 64-bit coefficient words `a`,
and a target bit `b`. -/

structure Equation where
  s : Nat
  a : List Nat
  b : Nat
deriving DecidableEq, Repr

/-- Modelled from the spec: `Equation::homogeneous(s, a)` is the
equation with start `s`, coefficients `a`, and target bit 0. -/
def Equation.homogeneous (s : Nat) (a : List Nat) : Equation :=
  { s := s, a := a, b := 0 }

/-! ### CRLite domain types (`src/crlite/query.rs`, `src/crlite/builder.rs`) -/

/-- A CT log id, `[u8; 32]` in the source, modelled as a byte list. -/
abbrev LogId := List Nat

/-- `CRLiteCoverage` wraps a `HashMap<LogId, (u64, u64)>`.  The map is
modelled as an association list; insertion prepends a binding and
lookup takes the first match, matching the observable get/insert
behavior of the hash map. -/
abbrev CRLiteCoverage := List (LogId × (Nat × Nat))

/-- First-match lookup, the model of `HashMap::get`. -/
def covGet : CRLiteCoverage → LogId → Option (Nat × Nat)
  | [], _ => none
  | (k, v) :: rest, key => if k = key then some v else covGet rest key

/-- Binding insertion, the model of `HashMap::insert`: the new binding
shadows any earlier binding of the same key. -/
def covInsert (cov : CRLiteCoverage) (k : LogId) (v : Nat × Nat) : CRLiteCoverage :=
  (k, v) :: cov

structure CRLiteQuery where
  issuer : List Nat
  serial : List Nat
  log_timestamps : Option (List (LogId × Nat))
deriving DecidableEq, Repr

structure CRLiteBuilderItem where
  issuer : List Nat
  serial : List Nat
  revoked : Bool
deriving DecidableEq, Repr

/-- Little-endian interpretation of a byte list (`u64::from_le_bytes`). -/
def fromLeBytes (l : List Nat) : Nat := l.foldr (fun b acc => b + 256 * acc) 0

/-- `CRLiteQuery::as_query`: hash issuer‖serial with SHA-256 (the
incremental `hasher.update(issuer); hasher.update(serial)` equals the
digest of the concatenation), read the 32-byte digest as four
little-endian 64-bit words via `chunks_exact(8)`, force the low bit of
`a[0]`, and build the homogeneous equation starting at
`a[3] % max(1, m)`. -/
def CRLiteQuery.as_query (q : CRLiteQuery) (m : Nat) : Equation :=
  let digest := sha256 (q.issuer ++ q.serial)
  let a0 := fromLeBytes (digest.take 8)
  let a1 := fromLeBytes ((digest.drop 8).take 8)
  let a2 := fromLeBytes ((digest.drop 16).take 8)
  let a3 := fromLeBytes ((digest.drop 24).take 8)
  let s := a3 % max 1 m
  Equation.homogeneous s [a0 ||| 1, a1, a2, a3]

/-- `AsQuery::block` for `CRLiteQuery`. -/
def CRLiteQuery.block (q : CRLiteQuery) : List Nat := q.issuer

/-- `AsQuery::discriminant` for `CRLiteQuery`. -/
def CRLiteQuery.discriminant (q : CRLiteQuery) : List Nat := q.serial

/-- `From<&CRLiteBuilderItem> for CRLiteQuery`. -/
def CRLiteBuilderItem.toQuery (item : CRLiteBuilderItem) : CRLiteQuery :=
  { issuer := item.issuer, serial := item.serial, log_timestamps := none }

/-- `Filterable::as_equation` for `CRLiteBuilderItem`: the query
equation with the target bit overridden by the revocation status. -/
def CRLiteBuilderItem.as_equation (item : CRLiteBuilderItem) (m : Nat) : Equation :=
  let eq := item.toQuery.as_query m
  { eq with b := if item.revoked then 0 else 1 }

/-- `Filterable::block_id` for `CRLiteBuilderItem`. -/
def CRLiteBuilderItem.block_id (item : CRLiteBuilderItem) : List Nat := item.issuer

/-- `Filterable::discriminant` for `CRLiteBuilderItem`. -/
def CRLiteBuilderItem.discriminant (item : CRLiteBuilderItem) : List Nat := item.serial

/-- `Filterable::included` for `CRLiteBuilderItem`. -/
def CRLiteBuilderItem.included (item : CRLiteBuilderItem) : Bool := item.revoked

/-- `Queryable::in_universe` for `CRLiteQuery`: true when some supplied
(log id, timestamp) pair lies inside that log's covered interval. -/
def CRLiteQuery.in_universe (q : CRLiteQuery) (universeMeta : CRLiteCoverage) : Bool :=
  match q.log_timestamps with
  | none => false
  | some log_timestamps =>
    log_timestamps.any (fun p =>
      match covGet universeMeta p.1 with
      | some (low, high) => decide (low ≤ p.2) && decide (p.2 ≤ high)
      | none => false)

/-! ### Base64 (the `base64` crate's `BASE64_STANDARD` engine)

RFC 4648 standard-alphabet decoding with required canonical padding
and zero trailing bits, as used by `from_mozilla_ct_logs_json`. -/

/-- The value of one standard-alphabet base64 character. -/
def b64Val (c : Char) : Option Nat :=
  if 65 ≤ c.toNat ∧ c.toNat ≤ 90 then some (c.toNat - 65)
  else if 97 ≤ c.toNat ∧ c.toNat ≤ 122 then some (c.toNat - 97 + 26)
  else if 48 ≤ c.toNat ∧ c.toNat ≤ 57 then some (c.toNat - 48 + 52)
  else if c = '+' then some 62
  else if c = '/' then some 63
  else none

/-- Decode a base64 string, processed in four-character groups; the
final group may carry one or two padding characters. -/
def base64Decode : List Char → Option (List Nat)
  | [] => some []
  | [c1, c2, '=', '='] =>
    match b64Val c1, b64Val c2 with
    | some v1, some v2 => if v2 % 16 = 0 then some [v1 * 4 + v2 / 16] else none
    | _, _ => none
  | [c1, c2, c3, '='] =>
    match b64Val c1, b64Val c2, b64Val c3 with
    | some v1, some v2, some v3 =>
      if v3 % 4 = 0 then some [v1 * 4 + v2 / 16, v2 % 16 * 16 + v3 / 4] else none
    | _, _, _ => none
  | c1 :: c2 :: c3 :: c4 :: rest =>
    match b64Val c1, b64Val c2, b64Val c3, b64Val c4 with
    | some v1, some v2, some v3, some v4 =>
      match base64Decode rest with
      | some bs => some ([v1 * 4 + v2 / 16, v2 % 16 * 16 + v3 / 4, v3 % 4 * 64 + v4] ++ bs)
      | none => none
    | _, _, _, _ => none
  | _ => none

/-! ### Coverage construction (`CRLiteCoverage::from_mozilla_ct_logs_json`)

The document has already passed through `serde_json`; the embedding
takes the parse result directly: `none` models a document that failed
to parse as a list of records. -/

/-- One record of the Mozilla CT logs document. -/
structure MozillaCtLogsJson where
  LogID : List Char
  MaxTimestamp : Nat
  MinTimestamp : Nat
deriving DecidableEq, Repr

/-- The loop body of `from_mozilla_ct_logs_json`: decode the record's
LogID; on a valid 32-byte id insert the (min, max) interval, otherwise
skip the record. -/
def mozStep (coverage : CRLiteCoverage) (entry : MozillaCtLogsJson) : CRLiteCoverage :=
  match base64Decode entry.LogID with
  | some bytes =>
    if bytes.length = 32 then
      covInsert coverage bytes (entry.MinTimestamp, entry.MaxTimestamp)
    else coverage
  | none => coverage

/-- `CRLiteCoverage::from_mozilla_ct_logs_json`: an unparseable
document yields the empty coverage map, otherwise the records are
folded through `mozStep`. -/
def CRLiteCoverage.from_mozilla_ct_logs_json
    (parsed : Option (List MozillaCtLogsJson)) : CRLiteCoverage :=
  match parsed with
  | none => []
  | some entries => entries.foldl mozStep []

/-- A record is well formed when its LogID is valid base64 decoding to
exactly 32 bytes. -/
def wellFormedEntry (e : MozillaCtLogsJson) : Bool :=
  match base64Decode e.LogID with
  | some bytes => bytes.length == 32
  | none => false

/-- The record decodes to the 32-byte log id `k`. -/
def entryBinds (k : LogId) (e : MozillaCtLogsJson) : Bool :=
  (base64Decode e.LogID == some k) && (k.length == 32)

/-! ### Clubcard (core type outside the given sources)

Modelled from the spec: a Clubcard is the immutable result
{approximate ribbons by block, exact ribbons by block, universe
metadata, partition metadata}; a ribbon is a solved system {solution
width m, packed solution bits}; `evaluate` XORs the parity of
(coeffs[i] AND the window of the solution starting at start, word i)
over the four coefficient words; `unchecked_contains` looks up the
exact ribbon for the query's block (absent block gives false) and
interprets evaluated bit 0 as membership; `contains` gates on the
universe predicate first. -/

/-- Modelled from the spec: a solved ribbon. -/
structure Ribbon where
  m : Nat
  sol : List Bool
deriving DecidableEq, Repr

/-- Parity of the set bits of a natural number. -/
def natParity (n : Nat) : Bool :=
  if h : n = 0 then false
  else xor (decide (n % 2 = 1)) (natParity (n / 2))
decreasing_by exact Nat.div_lt_self (Nat.pos_of_ne_zero h) one_lt_two

/-- Little-endian value of a bit list. -/
def bitsToNatLe : List Bool → Nat
  | [] => 0
  | b :: rest => (if b then 1 else 0) + 2 * bitsToNatLe rest

/-- The 64-bit word of the solution starting at bit offset `off`. -/
def solutionWord (sol : List Bool) (off : Nat) : Nat :=
  bitsToNatLe ((sol.drop off).take 64)

/-- Modelled from the spec: evaluate a ribbon's solution against an
equation's (start, coeffs), producing the reproduced target bit. -/
def evalRibbon (rib : Ribbon) (e : Equation) : Bool :=
  (List.range 4).foldl
    (fun acc i => xor acc (natParity (e.a.getD i 0 &&& solutionWord rib.sol (e.s + 64 * i))))
    false

/-- First-match lookup in a block-to-ribbon table. -/
def ribGet : List (List Nat × Ribbon) → List Nat → Option Ribbon
  | [], _ => none
  | (k, v) :: rest, key => if k = key then some v else ribGet rest key

/-- Modelled from the spec: the immutable clubcard record. -/
structure Clubcard where
  approxRibbons : List (List Nat × Ribbon)
  exactRibbons : List (List Nat × Ribbon)
  universeMeta : CRLiteCoverage
  partitionMeta : Unit
deriving DecidableEq, Repr

/-- The three-valued query outcome. -/
inductive Membership where
  | Member
  | Nonmember
  | NotInUniverse
deriving DecidableEq, Repr

/-- Modelled from the spec: `unchecked_contains` evaluates the exact
ribbon of the query's block; an unknown block yields false and an
evaluated target bit 0 means member. -/
def Clubcard.unchecked_contains (c : Clubcard) (q : CRLiteQuery) : Bool :=
  match ribGet c.exactRibbons q.block with
  | none => false
  | some rib => !(evalRibbon rib (q.as_query rib.m))

/-- Modelled from the spec: `contains` applies the universe predicate
first; outside the universe the answer is `NotInUniverse`
unconditionally. -/
def Clubcard.contains (c : Clubcard) (q : CRLiteQuery) : Membership :=
  if q.in_universe c.universeMeta then
    if c.unchecked_contains q then Membership.Member else Membership.Nonmember
  else Membership.NotInUniverse

inductive ClubcardError where
  | Serialize
  | Deserialize
  | UnsupportedVersion
deriving DecidableEq, Repr

/-! ### Serialization

The body encoding stands in for `bincode`.  Modelled from the spec: a
self-describing encoding of the full clubcard record (ribbon tables,
universe metadata, partition metadata); decoding reads from the front
of the buffer and fails on any structural mismatch. -/

def encNat (n : Nat) : List Nat := [n]

def decNat : List Nat → Option (Nat × List Nat)
  | [] => none
  | n :: r => some (n, r)

def encBool (b : Bool) : List Nat := [if b then 1 else 0]

def decBool : List Nat → Option (Bool × List Nat)
  | 0 :: r => some (false, r)
  | 1 :: r => some (true, r)
  | _ => none

/-- Encoding of a list as its length followed by its elements. -/
def encListWith (enc : α → List Nat) (xs : List α) : List Nat :=
  xs.length :: (xs.map enc).flatten

/-- Decode exactly `n` consecutive values. -/
def decCount (dec : List Nat → Option (α × List Nat)) :
    Nat → List Nat → Option (List α × List Nat)
  | 0, r => some ([], r)
  | n + 1, r =>
    match dec r with
    | some (a, r1) =>
      match decCount dec n r1 with
      | some (as, r2) => some (a :: as, r2)
      | none => none
    | none => none

def decListWith (dec : List Nat → Option (α × List Nat)) (l : List Nat) :
    Option (List α × List Nat) :=
  match decNat l with
  | some (n, r) => decCount dec n r
  | none => none

def encRibbon (rib : Ribbon) : List Nat :=
  encNat rib.m ++ encListWith encBool rib.sol

def decRibbon (l : List Nat) : Option (Ribbon × List Nat) :=
  match decNat l with
  | some (m, r1) =>
    match decListWith decBool r1 with
    | some (sol, r2) => some (⟨m, sol⟩, r2)
    | none => none
  | none => none

def encBlockRibbon (kv : List Nat × Ribbon) : List Nat :=
  encListWith encNat kv.1 ++ encRibbon kv.2

def decBlockRibbon (l : List Nat) : Option ((List Nat × Ribbon) × List Nat) :=
  match decListWith decNat l with
  | some (k, r1) =>
    match decRibbon r1 with
    | some (rib, r2) => some ((k, rib), r2)
    | none => none
  | none => none

def encCovEntry (kv : LogId × (Nat × Nat)) : List Nat :=
  encListWith encNat kv.1 ++ encNat kv.2.1 ++ encNat kv.2.2

def decCovEntry (l : List Nat) : Option ((LogId × (Nat × Nat)) × List Nat) :=
  match decListWith decNat l with
  | some (k, r1) =>
    match decNat r1 with
    | some (lo, r2) =>
      match decNat r2 with
      | some (hi, r3) => some ((k, (lo, hi)), r3)
      | none => none
    | none => none
  | none => none

/-- Modelled from the spec: encoding of the full clubcard record. -/
def encClubcard (c : Clubcard) : List Nat :=
  encListWith encBlockRibbon c.approxRibbons ++
  encListWith encBlockRibbon c.exactRibbons ++
  encListWith encCovEntry c.universeMeta

/-- Modelled from the spec: decoding of the clubcard record. -/
def decClubcard (l : List Nat) : Option Clubcard :=
  match decListWith decBlockRibbon l with
  | some (approx, r1) =>
    match decListWith decBlockRibbon r1 with
    | some (ex, r2) =>
      match decListWith decCovEntry r2 with
      | some (uni, _) => some ⟨approx, ex, uni, ()⟩
      | none => none
    | none => none
  | none => none

/-- `Clubcard::SERIALIZATION_VERSION`. -/
def SERIALIZATION_VERSION : Nat := 0xffff

/-- `u16::to_le_bytes`. -/
def u16ToLeBytes (x : Nat) : List Nat := [x % 256, x / 256 % 256]

/-- `u16::from_le_bytes`. -/
def u16FromLeBytes (b0 b1 : Nat) : Nat := b0 + 256 * b1

/-- `Clubcard::to_bytes`: the little-endian version tag followed by
the body encoding. -/
def Clubcard.to_bytes (c : Clubcard) : Except ClubcardError (List Nat) :=
  Except.ok (u16ToLeBytes SERIALIZATION_VERSION ++ encClubcard c)

/-- `Clubcard::from_bytes`: split off the two version bytes, check the
tag, then decode the body.  `bytes.split_at(2)` panics on a buffer
shorter than two bytes; the panic is modelled by `none`. -/
def Clubcard.from_bytes : List Nat → Option (Except ClubcardError Clubcard)
  | b0 :: b1 :: rest =>
    if u16FromLeBytes b0 b1 ≠ SERIALIZATION_VERSION then
      some (Except.error ClubcardError.UnsupportedVersion)
    else
      match decClubcard rest with
      | some c => some (Except.ok c)
      | none => some (Except.error ClubcardError.Deserialize)
  | _ => none

/-! ### Helper lemmas -/

theorem or_one_mod_two (x : Nat) : (x ||| 1) % 2 = 1 := by
  have h : (x ||| 1).testBit 0 = true := by
    simp [Nat.testBit_or]
  simpa [Nat.testBit_zero] using h

/-- The inner match of `in_universe`, characterized. -/
theorem covMatch_eq_true (cov : CRLiteCoverage) (p : LogId × Nat) :
    (match covGet cov p.1 with
      | some (low, high) => decide (low ≤ p.2) && decide (p.2 ≤ high)
      | none => false) = true ↔
    ∃ low high, covGet cov p.1 = some (low, high) ∧ low ≤ p.2 ∧ p.2 ≤ high := by
  rcases h : covGet cov p.1 with _ | ⟨low, high⟩
  · simp [h]
  · simp only [h, Bool.and_eq_true, decide_eq_true_eq, Option.some.injEq, Prod.mk.injEq]
    constructor
    · rintro ⟨h1, h2⟩
      exact ⟨low, high, ⟨rfl, rfl⟩, h1, h2⟩
    · rintro ⟨l1, h1, ⟨hl, hh⟩, hle1, hle2⟩
      subst hl
      subst hh
      exact ⟨hle1, hle2⟩

/-! ### Claim theorems -/

/-- C1: `CRLiteQuery::as_query(m)` hashes issuer‖serial with SHA-256,
reads the 32-byte digest as four little-endian 64-bit words, forces
the low bit of the first word, and returns the homogeneous equation
whose coefficients are those words and whose start is the fourth word
reduced modulo `max(1, m)`; in particular the produced equation's
first coefficient always has low bit 1. -/
theorem as_query_hash_derivation (q : CRLiteQuery) (m : Nat) :
    (q.as_query m).a =
      [fromLeBytes ((sha256 (q.issuer ++ q.serial)).take 8) ||| 1,
       fromLeBytes (((sha256 (q.issuer ++ q.serial)).drop 8).take 8),
       fromLeBytes (((sha256 (q.issuer ++ q.serial)).drop 16).take 8),
       fromLeBytes (((sha256 (q.issuer ++ q.serial)).drop 24).take 8)] ∧
    (q.as_query m).s =
      fromLeBytes (((sha256 (q.issuer ++ q.serial)).drop 24).take 8) % max 1 m ∧
    (q.as_query m).b = 0 ∧
    (q.as_query m).a.headI % 2 = 1 := by
  refine ⟨rfl, rfl, rfl, ?_⟩
  exact or_one_mod_two _

/-- C2: `CRLiteBuilderItem::as_equation(m)` agrees with
`CRLiteQuery::as_query(m)` for the same issuer and serial (whatever
timestamps the query carries) in start offset and all coefficient
words, and differs only in the target bit, overridden to 0 for a
revoked item and to 1 otherwise. -/
theorem as_equation_matches_as_query (issuer serial : List Nat) (revoked : Bool)
    (lts : Option (List (LogId × Nat))) (m : Nat) :
    (CRLiteBuilderItem.as_equation ⟨issuer, serial, revoked⟩ m).s =
      (CRLiteQuery.as_query ⟨issuer, serial, lts⟩ m).s ∧
    (CRLiteBuilderItem.as_equation ⟨issuer, serial, revoked⟩ m).a =
      (CRLiteQuery.as_query ⟨issuer, serial, lts⟩ m).a ∧
    (CRLiteBuilderItem.as_equation ⟨issuer, serial, revoked⟩ m).b =
      (if revoked then 0 else 1) :=
  ⟨rfl, rfl, rfl⟩

/-- C3: `in_universe` returns true exactly when the query carries a
timestamp list containing a pair whose log id is bound in the coverage
map to an interval [low, high] with low ≤ t ≤ high; an absent and an
empty timestamp list both give false. -/
theorem in_universe_iff (q : CRLiteQuery) (cov : CRLiteCoverage) :
    (q.in_universe cov = true ↔
      ∃ lts, q.log_timestamps = some lts ∧
        ∃ p ∈ lts, ∃ low high,
          covGet cov p.1 = some (low, high) ∧ low ≤ p.2 ∧ p.2 ≤ high) ∧
    (q.log_timestamps = none → q.in_universe cov = false) ∧
    (q.log_timestamps = some [] → q.in_universe cov = false) := by
  obtain ⟨issuer, serial, olts⟩ := q
  cases olts with
  | none =>
    refine ⟨?_, fun _ => rfl, fun h => ?_⟩
    · simp [CRLiteQuery.in_universe]
    · exact absurd h (by simp)
  | some lts =>
    have hrw : CRLiteQuery.in_universe ⟨issuer, serial, some lts⟩ cov
        = lts.any (fun p =>
            match covGet cov p.1 with
            | some (low, high) => decide (low ≤ p.2) && decide (p.2 ≤ high)
            | none => false) := rfl
    refine ⟨?_, fun h => absurd h (by simp), fun h => ?_⟩
    · rw [hrw, List.any_eq_true]
      constructor
      · rintro ⟨p, hp, hm⟩
        exact ⟨lts, rfl, p, hp, (covMatch_eq_true cov p).mp hm⟩
      · rintro ⟨lts2, hl, p, hp, hm⟩
        have hl2 : some lts = some lts2 := hl
        cases hl2
        exact ⟨p, hp, (covMatch_eq_true cov p).mpr hm⟩
    · have h2 : some lts = some ([] : List (LogId × Nat)) := h
      cases h2
      rfl

/-- C8: the block id of a builder item and of a query is its 32-byte
issuer, and the discriminant is its serial byte string, byte for
byte. -/
theorem block_id_and_discriminant (item : CRLiteBuilderItem) (q : CRLiteQuery) :
    item.block_id = item.issuer ∧ item.discriminant = item.serial ∧
    q.block = q.issuer ∧ q.discriminant = q.serial :=
  ⟨rfl, rfl, rfl, rfl⟩

/-- C3 witness: `in_universe_iff` evaluated at concrete queries — an
absent timestamp list, an empty one, and one pair inside the covered
interval. -/
theorem in_universe_iff_witness :
    CRLiteQuery.in_universe ⟨[1], [2], none⟩ [([0], (1, 10))] = false ∧
    CRLiteQuery.in_universe ⟨[1], [2], some []⟩ [([0], (1, 10))] = false ∧
    CRLiteQuery.in_universe ⟨[1], [2], some [([0], 5)]⟩ [([0], (1, 10))] = true :=
  ⟨(in_universe_iff ⟨[1], [2], none⟩ [([0], (1, 10))]).2.1 rfl,
   (in_universe_iff ⟨[1], [2], some []⟩ [([0], (1, 10))]).2.2 rfl,
   (in_universe_iff ⟨[1], [2], some [([0], 5)]⟩ [([0], (1, 10))]).1.mpr
     ⟨[([0], 5)], rfl, ([0], 5), by decide, 1, 10, by decide, by decide, by decide⟩⟩

/-- C9: `from_bytes` is not total — on a buffer shorter than two bytes
`bytes.split_at(2)` panics (modelled by `none`), so the claim that
every input yields a `Result` fails at the empty and one-byte
buffers. -/
theorem from_bytes_short_panics :
    Clubcard.from_bytes [] = none ∧ Clubcard.from_bytes [0] = none :=
  ⟨rfl, rfl⟩

/-! ### Round-trip lemmas for the body encoding -/

theorem decNat_enc (n : Nat) (r : List Nat) : decNat (encNat n ++ r) = some (n, r) := rfl

theorem decBool_enc (b : Bool) (r : List Nat) : decBool (encBool b ++ r) = some (b, r) := by
  cases b <;> rfl

theorem decCount_enc {α : Type} (dec : List Nat → Option (α × List Nat))
    (enc : α → List Nat) (h : ∀ a r, dec (enc a ++ r) = some (a, r)) :
    ∀ (xs : List α) (r : List Nat),
      decCount dec xs.length ((xs.map enc).flatten ++ r) = some (xs, r) := by
  intro xs
  induction xs with
  | nil => intro r; rfl
  | cons x xs ih =>
    intro r
    have hshape : ((x :: xs).map enc).flatten ++ r
        = enc x ++ ((xs.map enc).flatten ++ r) := by
      simp [List.append_assoc]
    rw [List.length_cons, hshape]
    simp only [decCount, h x, ih r]

theorem decListWith_enc {α : Type} (dec : List Nat → Option (α × List Nat))
    (enc : α → List Nat) (h : ∀ a r, dec (enc a ++ r) = some (a, r))
    (xs : List α) (r : List Nat) :
    decListWith dec (encListWith enc xs ++ r) = some (xs, r) := by
  have hshape : encListWith enc xs ++ r = xs.length :: ((xs.map enc).flatten ++ r) := by
    simp [encListWith]
  rw [hshape]
  simp only [decListWith, decNat, decCount_enc dec enc h xs r]

theorem decRibbon_enc (rib : Ribbon) (r : List Nat) :
    decRibbon (encRibbon rib ++ r) = some (rib, r) := by
  have hshape : encRibbon rib ++ r
      = encNat rib.m ++ (encListWith encBool rib.sol ++ r) := by
    simp [encRibbon]
  rw [hshape]
  simp only [decRibbon, decNat_enc, decListWith_enc decBool encBool decBool_enc]

theorem decBlockRibbon_enc (kv : List Nat × Ribbon) (r : List Nat) :
    decBlockRibbon (encBlockRibbon kv ++ r) = some (kv, r) := by
  have hshape : encBlockRibbon kv ++ r
      = encListWith encNat kv.1 ++ (encRibbon kv.2 ++ r) := by
    simp [encBlockRibbon]
  rw [hshape]
  simp only [decBlockRibbon, decListWith_enc decNat encNat decNat_enc, decRibbon_enc]

theorem decCovEntry_enc (kv : LogId × (Nat × Nat)) (r : List Nat) :
    decCovEntry (encCovEntry kv ++ r) = some (kv, r) := by
  have hshape : encCovEntry kv ++ r
      = encListWith encNat kv.1 ++ (encNat kv.2.1 ++ (encNat kv.2.2 ++ r)) := by
    simp [encCovEntry]
  rw [hshape]
  simp only [decCovEntry, decListWith_enc decNat encNat decNat_enc, decNat_enc]

theorem decClubcard_enc (c : Clubcard) :
    decClubcard (encClubcard c) = some c := by
  have hshape : encClubcard c
      = encListWith encBlockRibbon c.approxRibbons ++
        (encListWith encBlockRibbon c.exactRibbons ++
          (encListWith encCovEntry c.universeMeta ++ [])) := by
    simp [encClubcard]
  rw [hshape]
  simp only [decClubcard,
    decListWith_enc decBlockRibbon encBlockRibbon decBlockRibbon_enc,
    decListWith_enc decCovEntry encCovEntry decCovEntry_enc]

/-! ### Serialization claim theorems -/

/-- C7: a successful `to_bytes` produces a buffer whose first two
bytes are the little-endian 16-bit serialization version and whose
remainder is the encoding of the full clubcard record. -/
theorem to_bytes_layout (c : Clubcard) (buf : List Nat)
    (h : c.to_bytes = Except.ok buf) :
    buf.take 2 = u16ToLeBytes SERIALIZATION_VERSION ∧
    buf.drop 2 = encClubcard c := by
  have hb : buf = u16ToLeBytes SERIALIZATION_VERSION ++ encClubcard c := by
    cases h
    rfl
  subst hb
  exact ⟨rfl, rfl⟩

/-- C7 witness: the layout theorem applied to the empty clubcard. -/
theorem to_bytes_layout_witness :
    (255 :: 255 :: encClubcard ⟨[], [], [], ()⟩).take 2
        = u16ToLeBytes SERIALIZATION_VERSION ∧
    (255 :: 255 :: encClubcard ⟨[], [], [], ()⟩).drop 2
        = encClubcard ⟨[], [], [], ()⟩ :=
  to_bytes_layout ⟨[], [], [], ()⟩ (255 :: 255 :: encClubcard ⟨[], [], [], ()⟩) rfl

/-- C4: on a buffer of at least two bytes whose little-endian version
tag differs from the serialization version, `from_bytes` returns
`UnsupportedVersion` whatever the body is; on a matching tag whose
body fails to decode it returns the `Deserialize` error. -/
theorem from_bytes_version_gate :
    (∀ b0 b1 rest, u16FromLeBytes b0 b1 ≠ SERIALIZATION_VERSION →
      Clubcard.from_bytes (b0 :: b1 :: rest)
        = some (Except.error ClubcardError.UnsupportedVersion)) ∧
    (∀ rest, decClubcard rest = none →
      Clubcard.from_bytes (255 :: 255 :: rest)
        = some (Except.error ClubcardError.Deserialize)) := by
  constructor
  · intro b0 b1 rest hv
    simp [Clubcard.from_bytes, hv]
  · intro rest hd
    have hv : u16FromLeBytes 255 255 = SERIALIZATION_VERSION := rfl
    simp [Clubcard.from_bytes, hv, hd]

/-- C4 witness: the version gate applied to the buffer [0, 0] (foreign
tag) and to [255, 255] (correct tag, empty body that fails to
decode). -/
theorem from_bytes_version_gate_witness :
    Clubcard.from_bytes [0, 0] = some (Except.error ClubcardError.UnsupportedVersion) ∧
    Clubcard.from_bytes [255, 255] = some (Except.error ClubcardError.Deserialize) :=
  ⟨from_bytes_version_gate.1 0 0 [] (by decide),
   from_bytes_version_gate.2 [] rfl⟩

/-- C6: deserializing the bytes of a successfully serialized clubcard
succeeds and yields a clubcard that answers `contains` and
`unchecked_contains` identically to the original on every query. -/
theorem round_trip (c : Clubcard) (buf : List Nat)
    (h : c.to_bytes = Except.ok buf) :
    ∃ c2, Clubcard.from_bytes buf = some (Except.ok c2) ∧
      (∀ q, c2.unchecked_contains q = c.unchecked_contains q) ∧
      (∀ q, c2.contains q = c.contains q) := by
  have hb : buf = 255 :: 255 :: encClubcard c := by
    cases h
    rfl
  subst hb
  refine ⟨c, ?_, fun _ => rfl, fun _ => rfl⟩
  have hv : u16FromLeBytes 255 255 = SERIALIZATION_VERSION := rfl
  simp [Clubcard.from_bytes, hv, decClubcard_enc]

/-- C6 witness: the round trip applied to a concrete one-block
clubcard. -/
theorem round_trip_witness :
    ∃ c2, Clubcard.from_bytes
        (255 :: 255 :: encClubcard ⟨[], [([7], ⟨1, [true]⟩)], [([5], (6, 9))], ()⟩)
        = some (Except.ok c2) ∧
      (∀ q, c2.unchecked_contains q
        = Clubcard.unchecked_contains ⟨[], [([7], ⟨1, [true]⟩)], [([5], (6, 9))], ()⟩ q) ∧
      (∀ q, c2.contains q
        = Clubcard.contains ⟨[], [([7], ⟨1, [true]⟩)], [([5], (6, 9))], ()⟩ q) :=
  round_trip ⟨[], [([7], ⟨1, [true]⟩)], [([5], (6, 9))], ()⟩
    (255 :: 255 :: encClubcard ⟨[], [([7], ⟨1, [true]⟩)], [([5], (6, 9))], ()⟩) rfl

/-! ### Coverage-parsing lemmas -/

theorem covGet_step (cov : CRLiteCoverage) (e : MozillaCtLogsJson) (k : LogId) :
    covGet (mozStep cov e) k
      = if entryBinds k e then some (e.MinTimestamp, e.MaxTimestamp)
        else covGet cov k := by
  rcases h : base64Decode e.LogID with _ | bytes
  · simp [mozStep, entryBinds, h]
  · by_cases hlen : bytes.length = 32
    · by_cases hk : bytes = k
      · subst hk
        simp [mozStep, entryBinds, h, hlen, covInsert, covGet]
      · simp [mozStep, entryBinds, h, hlen, covInsert, covGet, hk]
    · by_cases hk : bytes = k
      · subst hk
        simp [mozStep, entryBinds, h, hlen]
      · simp [mozStep, entryBinds, h, hlen, hk]

theorem mozStep_malformed (cov : CRLiteCoverage) (e : MozillaCtLogsJson)
    (h : wellFormedEntry e = false) : mozStep cov e = cov := by
  rcases hd : base64Decode e.LogID with _ | bytes
  · simp [mozStep, hd]
  · rw [wellFormedEntry, hd] at h
    simp only [beq_eq_false_iff_ne, ne_eq] at h
    simp [mozStep, hd, h]

theorem covGet_fold (entries : List MozillaCtLogsJson) (init : CRLiteCoverage) (k : LogId) :
    covGet (entries.foldl mozStep init) k
      = match entries.reverse.find? (entryBinds k) with
        | some e => some (e.MinTimestamp, e.MaxTimestamp)
        | none => covGet init k := by
  induction entries generalizing init with
  | nil => rfl
  | cons e es ih =>
    rw [List.foldl_cons, ih (mozStep init e), List.reverse_cons, List.find?_append]
    cases hf : es.reverse.find? (entryBinds k) with
    | some e2 => simp [hf]
    | none =>
      rw [covGet_step]
      cases hb : entryBinds k e <;> simp [hf, List.find?, hb]

/-- C10: when the parsed document holds several well-formed records
with the same decoded log id, the coverage map binds that id to the
(min, max) pair of the last such record in document order; earlier
duplicates are overwritten. -/
theorem coverage_last_record_wins (entries : List MozillaCtLogsJson) (k : LogId)
    (e : MozillaCtLogsJson)
    (h : entries.reverse.find? (entryBinds k) = some e) :
    covGet (CRLiteCoverage.from_mozilla_ct_logs_json (some entries)) k
      = some (e.MinTimestamp, e.MaxTimestamp) := by
  have hdef : CRLiteCoverage.from_mozilla_ct_logs_json (some entries)
      = entries.foldl mozStep [] := rfl
  rw [hdef, covGet_fold, h]

/-- C10 witness: two records carrying the all-zero 32-byte log id,
with the second record's interval (10, 20) winning. -/
theorem coverage_last_record_wins_witness :
    covGet (CRLiteCoverage.from_mozilla_ct_logs_json (some
        [⟨List.replicate 43 'A' ++ ['='], 2, 1⟩,
         ⟨List.replicate 43 'A' ++ ['='], 20, 10⟩]))
      (List.replicate 32 0) = some (10, 20) :=
  coverage_last_record_wins
    [⟨List.replicate 43 'A' ++ ['='], 2, 1⟩, ⟨List.replicate 43 'A' ++ ['='], 20, 10⟩]
    (List.replicate 32 0) ⟨List.replicate 43 'A' ++ ['='], 20, 10⟩ (by decide)

/-- C5: `from_mozilla_ct_logs_json` never fails: an unparseable
document yields the empty coverage map; a record whose LogID is not
valid base64 for a 32-byte value is skipped without affecting the
rest; and a well-formed record inserts the binding from its decoded
log id to its (MinTimestamp, MaxTimestamp) pair. -/
theorem coverage_parse_tolerance :
    (CRLiteCoverage.from_mozilla_ct_logs_json none = ([] : CRLiteCoverage)) ∧
    (∀ xs ys e, wellFormedEntry e = false →
      CRLiteCoverage.from_mozilla_ct_logs_json (some (xs ++ e :: ys))
        = CRLiteCoverage.from_mozilla_ct_logs_json (some (xs ++ ys))) ∧
    (∀ xs e k, base64Decode e.LogID = some k → k.length = 32 →
      covGet (CRLiteCoverage.from_mozilla_ct_logs_json (some (xs ++ [e]))) k
        = some (e.MinTimestamp, e.MaxTimestamp)) := by
  refine ⟨rfl, ?_, ?_⟩
  · intro xs ys e h
    have hdef : ∀ l, CRLiteCoverage.from_mozilla_ct_logs_json (some l)
        = l.foldl mozStep [] := fun _ => rfl
    rw [hdef, hdef, List.foldl_append, List.foldl_append, List.foldl_cons,
      mozStep_malformed _ _ h]
  · intro xs e k hk hlen
    have hdef : CRLiteCoverage.from_mozilla_ct_logs_json (some (xs ++ [e]))
        = (xs ++ [e]).foldl mozStep [] := rfl
    rw [hdef, List.foldl_append, List.foldl_cons, List.foldl_nil]
    rw [covGet_step]
    have hb : entryBinds k e = true := by
      rw [entryBinds, hk, hlen]
      simp
    rw [hb]
    rfl

/-- C5 witness: a record with an undecodable LogID is skipped, and a
well-formed record binding the all-zero log id to (5, 9) is kept. -/
theorem coverage_parse_tolerance_witness :
    CRLiteCoverage.from_mozilla_ct_logs_json (some [⟨['!'], 1, 0⟩])
      = CRLiteCoverage.from_mozilla_ct_logs_json (some []) ∧
    covGet (CRLiteCoverage.from_mozilla_ct_logs_json (some
        [⟨List.replicate 43 'A' ++ ['='], 9, 5⟩])) (List.replicate 32 0)
      = some (5, 9) :=
  ⟨coverage_parse_tolerance.2.1 [] [] ⟨['!'], 1, 0⟩ (by decide),
   coverage_parse_tolerance.2.2 [] ⟨List.replicate 43 'A' ++ ['='], 9, 5⟩
     (List.replicate 32 0) (by decide) (by decide)⟩

end Clubcard
